import Mathlib

/-!
# ScubaGoggles UI configuration core: a verification development

Shallow embedding of the configuration builder/cleaner, loader/merger,
validator and markdown policy-catalog reader from
`src/scubagoggles/ui/config_generator.py`, `src/scubagoggles/ui/validation.py`
and `src/scubagoggles/ui/scubaconfigapp.py`, together with proofs of the
behavioural properties stated in the specification.

Python dictionaries are modelled as insertion-ordered association lists
`List (String × Value)` (Python dict keys are unique; the operations below
mirror Python's first-occurrence lookup and in-place update semantics).
-/

namespace Scuba

/-- A Python value as it can appear in a ScubaGoggles configuration mapping:
`None`, booleans, integers, strings, lists and (nested) string-keyed dicts. -/
inductive Value : Type where
  | vnone : Value
  | vbool : Bool → Value
  | vint : Int → Value
  | vstr : String → Value
  | vlist : List Value → Value
  | vdict : List (String × Value) → Value

/-- `d.get(key)`: first-occurrence lookup in a Python dict modelled as an
association list. -/
def pyGet : List (String × Value) → String → Option Value
  | [], _ => none
  | (k, v) :: rest, key => if k = key then some v else pyGet rest key

/-- `d.get(key, dflt)`. -/
def pyGetD (d : List (String × Value)) (key : String) (dflt : Value) : Value :=
  (pyGet d key).getD dflt

/-- `d[key] = v`: replace the value at the first occurrence of `key`,
keeping its position, or append a new binding at the end. -/
def dictSet : List (String × Value) → String → Value → List (String × Value)
  | [], key, v => [(key, v)]
  | (k, w) :: rest, key, v =>
      if k = key then (key, v) :: rest else (k, w) :: dictSet rest key v

/-! ## `ConfigGenerator.clean_config_dict` (config_generator.py, lines 18–37) -/

/-- Python `value is None or value == "" or value == []` (a non-list,
non-string value such as `False` or `0` compares unequal to both `""`
and `[]`). -/
def isEmptyValue : Value → Bool
  | .vnone => true
  | .vstr s => s = ""
  | .vlist xs => xs.isEmpty
  | _ => false

/-- Python `value in ['./', '.']`. -/
def isCurrentDirSentinel : Value → Bool
  | .vstr s => s = "./" || s = "."
  | _ => false

/-- Python `value == 'false'` (string literal comparison: the boolean
`False` compares unequal to the string `'false'`). -/
def isFalseString : Value → Bool
  | .vstr s => s = "false"
  | _ => false

/-- `ConfigGenerator.clean_config_dict`: iterate over the items of the input
mapping in order, skipping empty values, the `outputpath` current-directory
sentinels and the string `'false'` for `darkmode`; every other pair is kept
unchanged, in order. -/
def clean_config_dict : List (String × Value) → List (String × Value)
  | [] => []
  | (key, value) :: rest =>
      if isEmptyValue value then clean_config_dict rest
      else if key = "outputpath" && isCurrentDirSentinel value then
        clean_config_dict rest
      else if key = "darkmode" && isFalseString value then
        clean_config_dict rest
      else (key, value) :: clean_config_dict rest

/-- The removal rule exactly as the specification words it: a pair is removed
iff its value is `None`, the empty string, or the empty sequence, or the key
is `outputpath` with value `./` or `.`, or the key is `darkmode` with the
string value `"false"`. -/
def specRemove (key : String) (value : Value) : Bool :=
  isEmptyValue value
    || (key = "outputpath" && isCurrentDirSentinel value)
    || (key = "darkmode" && isFalseString value)

theorem clean_cons (key : String) (value : Value) (rest : List (String × Value)) :
    clean_config_dict ((key, value) :: rest)
      = if specRemove key value then clean_config_dict rest
        else (key, value) :: clean_config_dict rest := by
  simp only [clean_config_dict, specRemove]
  by_cases h1 : isEmptyValue value = true <;>
    by_cases h2 : (decide (key = "outputpath") && isCurrentDirSentinel value) = true <;>
      by_cases h3 : (decide (key = "darkmode") && isFalseString value) = true <;>
        simp [h1, h2, h3]

theorem clean_eq_filter (cfg : List (String × Value)) :
    clean_config_dict cfg = cfg.filter (fun kv => !(specRemove kv.1 kv.2)) := by
  induction cfg with
  | nil => rfl
  | cons kv rest ih =>
      obtain ⟨key, value⟩ := kv
      rw [clean_cons, List.filter_cons, ih]
      by_cases h : specRemove key value = true <;> simp [h]

theorem clean_sublist (cfg : List (String × Value)) :
    (clean_config_dict cfg).Sublist cfg := by
  rw [clean_eq_filter]
  exact List.filter_sublist cfg

/-- C1: cleaning is idempotent: `clean_config_dict (clean_config_dict x) =
clean_config_dict x` for every input mapping `x`. -/
theorem clean_config_dict_idempotent (cfg : List (String × Value)) :
    clean_config_dict (clean_config_dict cfg) = clean_config_dict cfg := by
  rw [clean_eq_filter, clean_eq_filter cfg, List.filter_filter]
  apply List.filter_congr
  intro kv _
  simp

/-- C2: `clean_config_dict` removes exactly the pairs matching the
specification's removal rule (value `None`, empty string or empty sequence;
`outputpath` valued `./` or `.`; `darkmode` valued the string `"false"`, a
boolean false being retained); every other pair is kept with its value
unchanged, and the output is a sublist of the input, so insertion order is
preserved. -/
theorem clean_config_dict_spec (cfg : List (String × Value)) :
    clean_config_dict cfg = cfg.filter (fun kv => !(specRemove kv.1 kv.2))
      ∧ (clean_config_dict cfg).Sublist cfg
      ∧ ∀ b : Bool, specRemove "darkmode" (.vbool b) = false := by
  refine ⟨clean_eq_filter cfg, clean_sublist cfg, fun b => rfl⟩

/-! ## `ConfigLoader.merge_configs` (config_generator.py, lines 204–214) -/

mutual

/-- `ConfigLoader.merge_configs`: start from a copy of `base_config` and fold
the items of `override_config` over it in order; each item is assigned by
`mergeAssign` (the loop body). -/
def merge_configs : List (String × Value) → List (String × Value) → List (String × Value)
  | merged, [] => merged
  | merged, (key, value) :: rest => merge_configs (mergeAssign merged key value) rest
termination_by _ override => sizeOf override

/-- The body of the `merge_configs` loop: if the override value and the value
currently present under `key` are both dicts, merge them recursively;
otherwise the override value is assigned, replacing wholesale. -/
def mergeAssign (merged : List (String × Value)) (key : String) (value : Value) :
    List (String × Value) :=
  match value, pyGet merged key with
  | .vdict ov, some (.vdict bv) => dictSet merged key (.vdict (merge_configs bv ov))
  | _, _ => dictSet merged key value
termination_by sizeOf value

end

theorem pyGet_dictSet_self (d : List (String × Value)) (k : String) (v : Value) :
    pyGet (dictSet d k v) k = some v := by
  induction d with
  | nil => simp [dictSet, pyGet]
  | cons kv rest ih =>
      obtain ⟨k', w⟩ := kv
      by_cases h : k' = k <;> simp [dictSet, pyGet, h, ih]

theorem pyGet_dictSet_ne (d : List (String × Value)) (k q : String) (v : Value)
    (h : q ≠ k) : pyGet (dictSet d k v) q = pyGet d q := by
  have hkq : ¬ k = q := fun hh => h hh.symm
  induction d with
  | nil => simp [dictSet, pyGet, hkq]
  | cons kv rest ih =>
      obtain ⟨k', w⟩ := kv
      by_cases h1 : k' = k
      · subst h1
        simp [dictSet, pyGet, hkq]
      · by_cases h2 : k' = q <;> simp [dictSet, pyGet, h1, h2, h, hkq, ih]

theorem pyGet_mergeAssign_ne (merged : List (String × Value)) (k q : String)
    (v : Value) (h : q ≠ k) : pyGet (mergeAssign merged k v) q = pyGet merged q := by
  rw [mergeAssign.eq_def]
  split <;> exact pyGet_dictSet_ne _ _ _ _ h

theorem pyGet_merge_configs_not_mem (o : List (String × Value)) :
    ∀ (b : List (String × Value)) (q : String), (∀ kv ∈ o, kv.1 ≠ q) →
      pyGet (merge_configs b o) q = pyGet b q := by
  induction o with
  | nil => intro b q _; rw [merge_configs]
  | cons kv rest ih =>
      intro b q hq
      obtain ⟨k, v⟩ := kv
      rw [merge_configs]
      rw [ih _ q (fun kv hkv => hq kv (List.mem_cons_of_mem _ hkv))]
      exact pyGet_mergeAssign_ne _ _ _ _ (fun h => hq (k, v) (List.mem_cons_self _ _) h.symm)

/-- The per-key result of a merge, as the specification words it: the override
value replaces the base value wholesale, except that two nested dicts are
merged recursively. -/
def mergeSpecValue (bv : Option Value) (ov : Value) : Value :=
  match ov, bv with
  | .vdict od, some (.vdict bd) => .vdict (merge_configs bd od)
  | _, _ => ov

theorem pyGet_mergeAssign_self (merged : List (String × Value)) (k : String) (v : Value) :
    pyGet (mergeAssign merged k v) k = some (mergeSpecValue (pyGet merged k) v) := by
  rw [mergeAssign.eq_def]
  split
  · rename_i ov bv heq
    rw [pyGet_dictSet_self, mergeSpecValue.eq_def]
    rw [heq]
  · rename_i hcontra
    rw [pyGet_dictSet_self, mergeSpecValue.eq_def]
    split
    · exfalso; exact hcontra _ _ rfl (by assumption)
    · rfl

theorem merge_configs_get (o : List (String × Value)) :
    ∀ b : List (String × Value), (o.map Prod.fst).Nodup →
      ∀ q, pyGet (merge_configs b o) q =
        match pyGet o q with
        | none => pyGet b q
        | some v => some (mergeSpecValue (pyGet b q) v) := by
  induction o with
  | nil => intro b _ q; rw [merge_configs]; rfl
  | cons kv rest ih =>
      intro b hnd q
      obtain ⟨k, v⟩ := kv
      simp only [List.map_cons, List.nodup_cons] at hnd
      rw [merge_configs]
      by_cases hqk : q = k
      · subst hqk
        have hnotmem : ∀ kv ∈ rest, kv.1 ≠ q := by
          intro kv hkv h
          exact hnd.1 (h ▸ List.mem_map_of_mem Prod.fst hkv)
        rw [pyGet_merge_configs_not_mem rest _ q hnotmem, pyGet_mergeAssign_self]
        simp [pyGet]
      · rw [ih _ hnd.2 q]
        have hbase : pyGet (mergeAssign b k v) q = pyGet b q :=
          pyGet_mergeAssign_ne _ _ _ _ hqk
        have hhead : pyGet ((k, v) :: rest) q = pyGet rest q := by
          have hkq : ¬ k = q := fun hh => hqk hh.symm
          simp [pyGet, hkq]
        rw [hbase, hhead]

/-- C4: `merge_configs base {}` equals `base` (the embedding is a pure
function of its arguments, so `base` is never mutated), and for override
mappings with distinct keys the merge is key-wise: a key absent from the
override keeps its base value; a key present in the override takes the
override value, replacing wholesale, except that two nested dicts are merged
recursively. -/
theorem merge_configs_spec (base override : List (String × Value))
    (hnd : (override.map Prod.fst).Nodup) :
    merge_configs base [] = base
      ∧ ∀ q, pyGet (merge_configs base override) q =
          match pyGet override q with
          | none => pyGet base q
          | some v => some (mergeSpecValue (pyGet base q) v) := by
  exact ⟨by rw [merge_configs], merge_configs_get override base hnd⟩

/-- Witness for C4 at the specification's own example: merging
`{"omitpolicy": {"B": {"rationale": "y"}}}` over
`{"omitpolicy": {"A": {"rationale": "x"}}}` keeps both `A` and `B`. -/
theorem merge_configs_spec_witness :
    pyGet (merge_configs
        [("omitpolicy", Value.vdict [("A", Value.vdict [("rationale", Value.vstr "x")])])]
        [("omitpolicy", Value.vdict [("B", Value.vdict [("rationale", Value.vstr "y")])])])
      "omitpolicy"
      = some (Value.vdict [("A", Value.vdict [("rationale", Value.vstr "x")]),
                           ("B", Value.vdict [("rationale", Value.vstr "y")])]) := by
  have h := (merge_configs_spec
      [("omitpolicy", Value.vdict [("A", Value.vdict [("rationale", Value.vstr "x")])])]
      [("omitpolicy", Value.vdict [("B", Value.vdict [("rationale", Value.vstr "y")])])]
      (by simp)).2 "omitpolicy"
  rw [h]
  simp [pyGet, mergeSpecValue, merge_configs, mergeAssign, dictSet]

/-! ## Python string helpers used by the validators and the markdown reader -/

/-- Python truthiness of a value: `None`, `False`, `0`, `""`, `[]` and `{}`
are falsy, everything else is truthy. -/
def truthy : Value → Bool
  | .vnone => false
  | .vbool b => b
  | .vint n => n != 0
  | .vstr s => !(s = "")
  | .vlist xs => !xs.isEmpty
  | .vdict kvs => !kvs.isEmpty

/-- The string carried by a value (`""` for non-strings; the validators are
only ever applied to well-typed configurations). -/
def asStr : Value → String
  | .vstr s => s
  | _ => ""

/-- The strings carried by a list value. -/
def asStrList : Value → List String
  | .vlist xs => xs.map asStr
  | _ => []

/-- Python `str(x)` on an optional message, as interpolated by the f-strings
in `validate_complete_config` (`None` prints as `"None"`). -/
def pyStrOfOpt : Option String → String
  | none => "None"
  | some s => s

/-- Python `str.strip()`: drop leading and trailing whitespace. -/
def pyStrip (s : String) : String :=
  ⟨((s.data.dropWhile Char.isWhitespace).reverse.dropWhile Char.isWhitespace).reverse⟩

/-- A hexadecimal digit, upper or lower case (the character class `[0-9a-f]`
under `re.IGNORECASE`). -/
def isHexChar (c : Char) : Bool :=
  ('0' ≤ c && c ≤ '9') || ('a' ≤ c && c ≤ 'f') || ('A' ≤ c && c ≤ 'F')

/-- Consume exactly `n` characters satisfying `p`, returning the rest. -/
def takeCount (p : Char → Bool) : Nat → List Char → Option (List Char)
  | 0, cs => some cs
  | _ + 1, [] => none
  | n + 1, c :: cs => if p c then takeCount p n cs else none

/-- Consume one character satisfying `p`, returning the rest. -/
def expectClass (p : Char → Bool) : List Char → Option (List Char)
  | [] => none
  | c :: cs => if p c then some cs else none

/-- The full UUID regular expression of `validate_break_glass_accounts`
(validation.py line 113):
`[0-9a-f]{8}-[0-9a-f]{4}-[1-5][0-9a-f]{3}-[89ab][0-9a-f]{3}-[0-9a-f]{12}`
under `re.IGNORECASE`, consuming the whole character list. -/
def uuidRegexMatch (cs : List Char) : Bool :=
  ((((((((((takeCount isHexChar 8 cs).bind
    (expectClass (· == '-'))).bind
    (takeCount isHexChar 4)).bind
    (expectClass (· == '-'))).bind
    (expectClass (fun c => '1' ≤ c && c ≤ '5'))).bind
    (takeCount isHexChar 3)).bind
    (expectClass (· == '-'))).bind
    (expectClass (fun c =>
      c == '8' || c == '9' || c == 'a' || c == 'b' || c == 'A' || c == 'B'))).bind
    (takeCount isHexChar 3)).bind
    (expectClass (· == '-'))).bind
    (takeCount isHexChar 12) == some []

/-- Python `pattern.match(s)` for a pattern of the form `^...$`: the whole
string matches, or everything up to a single trailing newline matches (`$`
also matches just before a final newline). -/
def pyFullMatch (core : List Char → Bool) (s : String) : Bool :=
  core s.data
    || (match s.data.getLast? with
        | some c => c == '\n' && core s.data.dropLast
        | none => false)

/-! ## `ConfigValidator` (validation.py) -/

/-- `ConfigValidator.validate_access_token` (validation.py, lines 50–63):
required, at least 50 characters, only characters from `[A-Za-z0-9._-]`. -/
def validate_access_token (token : String) : Bool × Option String :=
  if token = "" then (false, some "Access token is required")
  else if token.length < 50 then (false, some "Access token appears to be too short")
  else if !(pyFullMatch (fun cs => !cs.isEmpty
      && cs.all (fun c => c.isAlpha || c.isDigit || c == '.' || c == '_' || c == '-')) token) then
    (false, some "Access token contains invalid characters")
  else (true, none)

/-- `ConfigValidator.validate_baselines` (validation.py, lines 95–104):
non-empty and every entry a member of the available baselines. -/
def validate_baselines (baselines available : List String) : Bool × Option String :=
  if baselines.isEmpty then (false, some "At least one baseline must be selected")
  else
    let invalid := baselines.filter (fun b => !(available.contains b))
    if invalid.isEmpty then (true, none)
    else (false, some ("Invalid baselines selected: " ++ String.intercalate ", " invalid))

/-- `ConfigValidator.validate_break_glass_accounts` (validation.py, lines
107–123): an empty list passes (optional field); otherwise every entry,
stripped, must match the UUID pattern, and the offending originals are
reported joined by `", "`. -/
def validate_break_glass_accounts (accounts : List String) : Bool × Option String :=
  if accounts.isEmpty then (true, none)
  else
    let invalid := accounts.filter (fun a => !(pyFullMatch uuidRegexMatch (pyStrip a)))
    if invalid.isEmpty then (true, none)
    else (false, some ("Invalid UUID format for break glass accounts: "
            ++ String.intercalate ", " invalid))

/-- An alphanumeric ASCII character (`[a-zA-Z0-9]`). -/
def alnumChar (c : Char) : Bool := c.isAlpha || c.isDigit

/-- One domain label, as matched by the pattern
`[a-zA-Z0-9]([a-zA-Z0-9\-]{0,61}[a-zA-Z0-9])?` of `validate_tenant_domain`:
non-empty, at most 63 characters, first and last alphanumeric, interior
characters alphanumeric or `-`. -/
def labelOk (cs : List Char) : Bool :=
  match cs, cs.getLast? with
  | [], _ => false
  | _ :: _, none => false
  | c :: rest, some l =>
      alnumChar c && alnumChar l && cs.length ≤ 63
        && rest.all (fun d => alnumChar d || d == '-')

/-- Split a character list on a separator character (like Python
`str.split(sep)`: `n` separators yield `n + 1` pieces, possibly empty). -/
def splitOnChar (sep : Char) : List Char → List (List Char)
  | [] => [[]]
  | c :: cs =>
      if c = sep then [] :: splitOnChar sep cs
      else
        match splitOnChar sep cs with
        | [] => [[c]]
        | p :: ps => (c :: p) :: ps

/-- The domain pattern of `validate_tenant_domain` (validation.py line 132):
one or more valid labels joined by dots. -/
def domainRegexMatch (cs : List Char) : Bool :=
  (splitOnChar '.' cs).all labelOk

/-- `ConfigValidator.validate_tenant_domain` (validation.py, lines 126–137):
empty passes (optional field); otherwise the domain pattern must match. -/
def validate_tenant_domain (domain : String) : Bool × Option String :=
  if domain = "" then (true, none)
  else if !(pyFullMatch domainRegexMatch domain) then (false, some "Invalid domain format")
  else (true, none)

/-- The two validators that touch the filesystem
(`validate_credentials_file`, lines 16–47, reads and decodes the credentials
JSON; `validate_output_path`, lines 66–92, probes directory creation and
write permission). They are modelled as an oracle: an arbitrary pair of
functions returning the `(ok, message)` pair the Python functions return;
every theorem below holds for every oracle. -/
structure FSOracle where
  validateCredentialsFile : Value → Bool × Option String
  validateOutputPath : Value → Bool × Option String

/-- The messages contributed by the authentication check of
`validate_complete_config` (validation.py, lines 144–157). -/
def authSegment (fs : FSOracle) (config : List (String × Value)) : List String :=
  let hasCreds := pyGetD config "credentials" Value.vnone
  let hasToken := pyGetD config "accesstoken" Value.vnone
  if !truthy hasCreds && !truthy hasToken then
    ["Either credentials file or access token is required"]
  else if truthy hasCreds then
    match fs.validateCredentialsFile hasCreds with
    | (true, _) => []
    | (false, e) => ["Credentials validation: " ++ pyStrOfOpt e]
  else if truthy hasToken then
    match validate_access_token (asStr hasToken) with
    | (true, _) => []
    | (false, e) => ["Access token validation: " ++ pyStrOfOpt e]
  else []

/-- The messages contributed by the baseline check (lines 159–163). -/
def baselineSegment (config : List (String × Value)) (available : List String) : List String :=
  match validate_baselines (asStrList (pyGetD config "baselines" (Value.vlist []))) available with
  | (true, _) => []
  | (false, e) => ["Baseline validation: " ++ pyStrOfOpt e]

/-- The messages contributed by the output-path check (lines 165–170),
skipped when `outputpath` is absent or falsy. -/
def outputSegment (fs : FSOracle) (config : List (String × Value)) : List String :=
  let outputPath := pyGetD config "outputpath" Value.vnone
  if truthy outputPath then
    match fs.validateOutputPath outputPath with
    | (true, _) => []
    | (false, e) => ["Output path validation: " ++ pyStrOfOpt e]
  else []

/-- The messages contributed by the break-glass check (lines 172–177),
skipped when the list is absent or empty. -/
def breakGlassSegment (config : List (String × Value)) : List String :=
  let breakGlass := pyGetD config "breakglassaccounts" (Value.vlist [])
  if truthy breakGlass then
    match validate_break_glass_accounts (asStrList breakGlass) with
    | (true, _) => []
    | (false, e) => ["Break glass accounts validation: " ++ pyStrOfOpt e]
  else []

/-- The messages contributed by the tenant-domain check (lines 179–184),
skipped when `tenant` is absent or falsy. -/
def tenantSegment (config : List (String × Value)) : List String :=
  let tenant := pyGetD config "tenant" Value.vnone
  if truthy tenant then
    match validate_tenant_domain (asStr tenant) with
    | (true, _) => []
    | (false, e) => ["Tenant domain validation: " ++ pyStrOfOpt e]
  else []

/-- `ConfigValidator.validate_complete_config` (validation.py, lines
140–186): accumulate the error messages of all five checks in order and
return `(len(errors) == 0, errors)`. -/
def validate_complete_config (fs : FSOracle) (config : List (String × Value))
    (available : List String) : Bool × List String :=
  let errors := authSegment fs config ++ baselineSegment config available
    ++ outputSegment fs config ++ breakGlassSegment config ++ tenantSegment config
  (errors.isEmpty, errors)

theorem authSegment_length (fs : FSOracle) (config : List (String × Value)) :
    (authSegment fs config).length ≤ 1 := by
  unfold authSegment
  dsimp only
  repeat' split
  all_goals simp

theorem baselineSegment_length (config : List (String × Value)) (available : List String) :
    (baselineSegment config available).length ≤ 1 := by
  unfold baselineSegment
  repeat' split
  all_goals simp

theorem outputSegment_length (fs : FSOracle) (config : List (String × Value)) :
    (outputSegment fs config).length ≤ 1 := by
  unfold outputSegment
  dsimp only
  repeat' split
  all_goals simp

theorem breakGlassSegment_length (config : List (String × Value)) :
    (breakGlassSegment config).length ≤ 1 := by
  unfold breakGlassSegment
  dsimp only
  repeat' split
  all_goals simp

theorem tenantSegment_length (config : List (String × Value)) :
    (tenantSegment config).length ≤ 1 := by
  unfold tenantSegment
  dsimp only
  repeat' split
  all_goals simp

/-- C5: `validate_complete_config` runs all applicable checks: its message
list is the concatenation, in the fixed order authentication, baselines,
output path, break-glass accounts, tenant domain, of the per-check segments,
each of which contributes at most one message; the ok flag is true iff the
list is empty; and on a document with neither `credentials` nor
`accesstoken` and an empty `baselines` list it returns exactly the
authentication message followed by the baseline message, with ok false. -/
theorem validate_complete_config_spec (fs : FSOracle) (config : List (String × Value))
    (available : List String) :
    (validate_complete_config fs config available).2
        = authSegment fs config ++ baselineSegment config available
          ++ outputSegment fs config ++ breakGlassSegment config ++ tenantSegment config
      ∧ (authSegment fs config).length ≤ 1
      ∧ (baselineSegment config available).length ≤ 1
      ∧ (outputSegment fs config).length ≤ 1
      ∧ (breakGlassSegment config).length ≤ 1
      ∧ (tenantSegment config).length ≤ 1
      ∧ ((validate_complete_config fs config available).1 = true
          ↔ (validate_complete_config fs config available).2 = [])
      ∧ validate_complete_config fs [("baselines", Value.vlist [])] available
          = (false, ["Either credentials file or access token is required",
                     "Baseline validation: At least one baseline must be selected"]) := by
  refine ⟨rfl, authSegment_length fs config, baselineSegment_length config available,
    outputSegment_length fs config, breakGlassSegment_length config,
    tenantSegment_length config, ?_, rfl⟩
  simp [validate_complete_config, List.isEmpty_iff]

/-- C6 counterexample: `12345678-1234-1234-1234-123456789012` has variant
nibble `1`, which fails the `[89ab]` group of the pattern, so the validator
rejects it (the claim states it is accepted with ok true). -/
theorem validate_break_glass_accounts_claim_false :
    validate_break_glass_accounts ["12345678-1234-1234-1234-123456789012"]
      = (false, some ("Invalid UUID format for break glass accounts: "
          ++ "12345678-1234-1234-1234-123456789012")) := by
  decide

/-- C6 amended: `validate_break_glass_accounts` rejects the list containing
the single account string `12345678-1234-1234-1234-123456789012` (its
version and variant nibbles fail the pattern's `[1-5]`/`[89ab]` constraints),
returning ok false with a message; it likewise rejects a bare email address;
a string satisfying the nibble constraints, such as
`12345678-1234-4234-8234-123456789012`, is accepted. -/
theorem validate_break_glass_accounts_amended :
    (validate_break_glass_accounts ["12345678-1234-1234-1234-123456789012"]).1 = false
      ∧ (validate_break_glass_accounts ["12345678-1234-1234-1234-123456789012"]).2.isSome = true
      ∧ (validate_break_glass_accounts ["admin@example.com"]).1 = false
      ∧ (validate_break_glass_accounts ["admin@example.com"]).2.isSome = true
      ∧ (validate_break_glass_accounts ["12345678-1234-4234-8234-123456789012"]).1 = true := by
  decide

/-- C10: when both `credentials` and `accesstoken` are present and truthy,
the authentication segment is produced by the credentials-file validator
alone (so no error about both modes being present is reported), and the
result does not depend on the access-token value at all: replacing it by any
other truthy value leaves the result unchanged, so the access-token
validator is never consulted. -/
theorem validate_complete_config_both_auth (fs : FSOracle) (config : List (String × Value))
    (available : List String)
    (hc : truthy (pyGetD config "credentials" Value.vnone) = true)
    (ht : truthy (pyGetD config "accesstoken" Value.vnone) = true) :
    authSegment fs config
        = (match fs.validateCredentialsFile (pyGetD config "credentials" Value.vnone) with
           | (true, _) => []
           | (false, e) => ["Credentials validation: " ++ pyStrOfOpt e])
      ∧ ∀ t : Value, truthy t = true →
          validate_complete_config fs (dictSet config "accesstoken" t) available
            = validate_complete_config fs config available := by
  constructor
  · simp [authSegment, hc, ht]
  · intro t htt
    have hcred : pyGetD (dictSet config "accesstoken" t) "credentials" Value.vnone
        = pyGetD config "credentials" Value.vnone := by
      simp [pyGetD, pyGet_dictSet_ne config "accesstoken" "credentials" t (by decide)]
    have htok : pyGetD (dictSet config "accesstoken" t) "accesstoken" Value.vnone = t := by
      simp [pyGetD, pyGet_dictSet_self]
    have hbl : pyGetD (dictSet config "accesstoken" t) "baselines" (Value.vlist [])
        = pyGetD config "baselines" (Value.vlist []) := by
      simp [pyGetD, pyGet_dictSet_ne config "accesstoken" "baselines" t (by decide)]
    have hop : pyGetD (dictSet config "accesstoken" t) "outputpath" Value.vnone
        = pyGetD config "outputpath" Value.vnone := by
      simp [pyGetD, pyGet_dictSet_ne config "accesstoken" "outputpath" t (by decide)]
    have hbg : pyGetD (dictSet config "accesstoken" t) "breakglassaccounts" (Value.vlist [])
        = pyGetD config "breakglassaccounts" (Value.vlist []) := by
      simp [pyGetD, pyGet_dictSet_ne config "accesstoken" "breakglassaccounts" t (by decide)]
    have hten : pyGetD (dictSet config "accesstoken" t) "tenant" Value.vnone
        = pyGetD config "tenant" Value.vnone := by
      simp [pyGetD, pyGet_dictSet_ne config "accesstoken" "tenant" t (by decide)]
    have hauth : authSegment fs (dictSet config "accesstoken" t) = authSegment fs config := by
      simp [authSegment, hcred, htok, hc, ht, htt]
    have hbase : baselineSegment (dictSet config "accesstoken" t) available
        = baselineSegment config available := by
      simp [baselineSegment, hbl]
    have hout : outputSegment fs (dictSet config "accesstoken" t) = outputSegment fs config := by
      simp [outputSegment, hop]
    have hbgs : breakGlassSegment (dictSet config "accesstoken" t)
        = breakGlassSegment config := by
      simp [breakGlassSegment, hbg]
    have htens : tenantSegment (dictSet config "accesstoken" t) = tenantSegment config := by
      simp [tenantSegment, hten]
    simp [validate_complete_config, hauth, hbase, hout, hbgs, htens]

/-- An oracle whose filesystem-dependent validators always succeed, for
instantiating the theorems on concrete configurations. -/
def trivialFS : FSOracle :=
  ⟨fun _ => (true, none), fun _ => (true, none)⟩

/-- Witness for C10: on a concrete configuration carrying both `credentials`
and `accesstoken`, replacing the access token leaves the validation result
unchanged. -/
theorem validate_complete_config_both_auth_witness :
    validate_complete_config trivialFS
        (dictSet [("credentials", Value.vstr "creds.json"), ("accesstoken", Value.vstr "tok")]
          "accesstoken" (Value.vstr "othertoken")) ["gmail"]
      = validate_complete_config trivialFS
          [("credentials", Value.vstr "creds.json"), ("accesstoken", Value.vstr "tok")]
          ["gmail"] :=
  (validate_complete_config_both_auth trivialFS
      [("credentials", Value.vstr "creds.json"), ("accesstoken", Value.vstr "tok")]
      ["gmail"] (by decide) (by decide)).2 (Value.vstr "othertoken") (by decide)

/-! ## `ScubaConfigApp.extract_policies_from_markdown` (scubaconfigapp.py, lines 105–142) -/

/-- `d[key] = v` on a Python dict with string values. -/
def dictSetStr : List (String × String) → String → String → List (String × String)
  | [], key, v => [(key, v)]
  | (k, w) :: rest, key, v =>
      if k = key then (key, v) :: rest else (k, w) :: dictSetStr rest key v

/-- `content.split('\n')`. -/
def pySplitLines (s : String) : List String :=
  (splitOnChar '\n' s.data).map (fun cs => ⟨cs⟩)

/-- `s.startswith(pre)`. -/
def pyStartswith (s pre : String) : Bool :=
  pre.data.isPrefixOf s.data

/-- `s.rstrip('.')`: drop trailing `.` characters. -/
def pyRstripDots (s : String) : String :=
  ⟨(s.data.reverse.dropWhile (· == '.')).reverse⟩

/-- `s.replace(pat, '')` with the given amount of fuel (one unit per
character examined; `cs.length` is always enough). -/
def replaceAllFuel (pat : List Char) : Nat → List Char → List Char
  | _, [] => []
  | 0, cs => cs
  | fuel + 1, c :: rest =>
      if pat.isPrefixOf (c :: rest) && !pat.isEmpty then
        replaceAllFuel pat fuel ((c :: rest).drop pat.length)
      else c :: replaceAllFuel pat fuel rest

/-- Python `s.replace(pat, '')`: remove every occurrence of `pat`, scanning
left to right. -/
def pyRemoveAll (pat s : String) : String :=
  ⟨replaceAllFuel pat.data s.data.length s.data⟩

/-- One step of Python `str.split()`: accumulate non-whitespace characters,
emitting a token at each whitespace run, discarding empties. -/
def wsSplitAux : List Char → List Char → List (List Char)
  | acc, [] => if acc.isEmpty then [] else [acc.reverse]
  | acc, c :: rest =>
      if c.isWhitespace then
        if acc.isEmpty then wsSplitAux [] rest
        else acc.reverse :: wsSplitAux [] rest
      else wsSplitAux (c :: acc) rest

/-- `s.split()`: whitespace-delimited tokens, no empties. -/
def pySplitWS (s : String) : List String :=
  (wsSplitAux [] s.data).map (fun cs => ⟨cs⟩)

/-- The loop state of `extract_policies_from_markdown`: the accumulated
`policies` dict, the `in_policies_section` flag and the pending
`current_policy_id`. -/
structure ScanState where
  policies : List (String × String)
  inPoliciesSection : Bool
  currentPolicyId : Option String

/-- The body of the `for line in lines` loop of
`extract_policies_from_markdown`: strip the line; enter the policies section
on `### Policies`; leave it on any other `### ` heading; record a policy id
on `#### GWS.` headings (first whitespace-delimited token after removing the
`#### ` marker); otherwise, if an id is pending and the line is a non-empty
non-heading line, record it as the description (trailing periods stripped)
and reset the pending id. -/
def extractStep (st : ScanState) (rawLine : String) : ScanState :=
  let line := pyStrip rawLine
  if line = "### Policies" then
    { st with inPoliciesSection := true }
  else if st.inPoliciesSection && pyStartswith line "### " && !(line = "### Policies") then
    { st with inPoliciesSection := false }
  else if st.inPoliciesSection && pyStartswith line "#### GWS." then
    { st with currentPolicyId := some ((pySplitWS (pyRemoveAll "#### " line)).headD "") }
  else
    match st.currentPolicyId with
    | some pid =>
        if st.inPoliciesSection && !(pid = "") && !(pyStartswith line "#")
            && !(line = "") then
          { policies := dictSetStr st.policies pid (pyRstripDots line),
            inPoliciesSection := st.inPoliciesSection,
            currentPolicyId := none }
        else st
    | none => st

/-- `ScubaConfigApp.extract_policies_from_markdown`: fold the loop body over
the lines of the content, starting outside the policies section, and return
the accumulated policies dict. (The `baseline_name` parameter is unused by
the Python function body.) -/
def extract_policies_from_markdown (_baselineName : String) (content : String) :
    List (String × String) :=
  ((pySplitLines content).foldl extractStep ⟨[], false, none⟩).policies

/-- C8: on content with a `### Policies` heading, then `#### GWS.0001
Example`, then the line `Do the thing.`, the reader yields the single entry
`GWS.0001 ↦ Do the thing` (trailing period stripped; only the first
whitespace-delimited token after the heading markers is the identifier). -/
theorem extract_policies_example :
    extract_policies_from_markdown "GMAIL"
        "### Policies\n#### GWS.0001 Example\nDo the thing."
      = [("GWS.0001", "Do the thing")] := by
  decide

/-- C7 counterexample: a `##` heading after `### Policies` does not leave
policy-section mode (the loop only exits on `### `-prefixed lines), so a
policy heading and description after it are still captured, contrary to the
claim that no identifiers or descriptions are captured after any heading at
the same or shallower level. -/
theorem extract_policies_shallow_heading_counterexample :
    (extractStep ⟨[], true, none⟩ "## Other Section").inPoliciesSection = true
      ∧ extract_policies_from_markdown "GMAIL"
          "### Policies\n## Other Section\n#### GWS.9 X\nDesc here."
        = [("GWS.9", "Desc here")] := by
  decide

/-- C7 amended: the scanner enters policy-section mode on a line that strips
to exactly `### Policies`; it exits the mode exactly on a stripped line that
starts with `### ` and differs from `### Policies` (capturing nothing from
that line); a heading line at any other level — `#`, `##`, or `####` not
introducing a `GWS.` policy — leaves the whole state unchanged, so shallower
headings do not end the section and identifiers can still be captured after
them. -/
theorem extractStep_mode (st : ScanState) (line : String) :
    (pyStrip line = "### Policies" → (extractStep st line).inPoliciesSection = true)
      ∧ (st.inPoliciesSection = true → pyStartswith (pyStrip line) "### " = true →
          ¬ pyStrip line = "### Policies" →
          (extractStep st line).inPoliciesSection = false
            ∧ (extractStep st line).policies = st.policies)
      ∧ (pyStartswith (pyStrip line) "#" = true →
          pyStartswith (pyStrip line) "### " = false →
          pyStartswith (pyStrip line) "#### GWS." = false →
          extractStep st line = st) := by
  refine ⟨?_, ?_, ?_⟩
  · intro h
    simp [extractStep, h]
  · intro hin hs hne
    simp [extractStep, hin, hs, hne]
  · intro hhash hs3 hgws
    have hne : ¬ pyStrip line = "### Policies" := by
      intro h
      rw [h] at hs3
      exact absurd hs3 (by decide)
    cases hcur : st.currentPolicyId with
    | none => simp [extractStep, hne, hs3, hgws, hcur, hhash]
    | some pid => simp [extractStep, hne, hs3, hgws, hcur, hhash]

/-- Witness for C7's amended statement: with the section open, the heading
`### Other` closes it, while the shallower heading `## Other` leaves the
state unchanged. -/
theorem extractStep_mode_witness :
    (extractStep ⟨[("GWS.1", "d")], true, some "GWS.2"⟩ "### Other").inPoliciesSection = false
      ∧ extractStep ⟨[("GWS.1", "d")], true, some "GWS.2"⟩ "## Other"
          = ⟨[("GWS.1", "d")], true, some "GWS.2"⟩ := by
  constructor
  · exact ((extractStep_mode ⟨[("GWS.1", "d")], true, some "GWS.2"⟩ "### Other").2.1
      rfl (by decide) (by decide)).1
  · exact (extractStep_mode ⟨[("GWS.1", "d")], true, some "GWS.2"⟩ "## Other").2.2
      (by decide) (by decide) (by decide)

/-! ## `ConfigLoader.load_config_file` (config_generator.py, lines 179–201) -/

/-- The decoding part of `ConfigLoader.load_config_file`, with the two
third-party decoders (`yaml.safe_load` raising `YAMLError`, `json.loads`
raising `JSONDecodeError`) abstracted as parameters returning either a
document or an error: try the format-A decoder first; on its failure try the
format-B decoder; when both fail, the error is surfaced as a message and the
function returns `None`. The embedding is a total function: no exception
escapes its boundary. -/
def load_config_content (yamlDecode jsonDecode : String → Except String Value)
    (content : String) : Option Value :=
  match yamlDecode content with
  | .ok v => some v
  | .error _ =>
      match jsonDecode content with
      | .ok v => some v
      | .error _ => none

/-- C9: `load_config_file` attempts format-A (YAML) decoding first — a
format-A success is returned as is, whatever the format-B decoder would say;
on format-A failure the format-B (JSON) result is returned; when both
decoders fail the loader returns nothing, and being a total function of its
decoders it never raises past its boundary. -/
theorem load_config_content_spec (yamlDecode jsonDecode : String → Except String Value)
    (content : String) :
    (∀ v, yamlDecode content = .ok v →
        load_config_content yamlDecode jsonDecode content = some v)
      ∧ (∀ e v, yamlDecode content = .error e → jsonDecode content = .ok v →
          load_config_content yamlDecode jsonDecode content = some v)
      ∧ (∀ e1 e2, yamlDecode content = .error e1 → jsonDecode content = .error e2 →
          load_config_content yamlDecode jsonDecode content = none) := by
  refine ⟨fun v h => by simp [load_config_content, h],
          fun e v h1 h2 => by simp [load_config_content, h1, h2],
          fun e1 e2 h1 h2 => by simp [load_config_content, h1, h2]⟩

/-- A decoder that always fails, for instantiating the loader theorems. -/
def failDecoder : String → Except String Value := fun _ => .error "invalid"

/-- Witness for C9: with two failing decoders the loader returns nothing. -/
theorem load_config_content_spec_witness :
    load_config_content failDecoder failDecoder "not: ] valid" = none :=
  (load_config_content_spec failDecoder failDecoder "not: ] valid").2.2
    "invalid" "invalid" rfl rfl

/-! ## Format-A serialization and parsing (`generate_yaml_config` with
`include_comments=False`, config_generator.py lines 40–47, and the YAML
decoding of `load_config_file`, lines 179–201)

`yaml.dump(..., default_flow_style=False, sort_keys=False)` and
`yaml.safe_load` are modelled on the block-style language the generator
emits for well-formed documents: single-line string and boolean scalars,
block sequences of scalars, nested block mappings with two-space nesting
and sequence dashes at the key's indent, and the empty containers in flow
form. A string scalar is emitted plain when it is in a conservative plain
subset (`[A-Za-z][A-Za-z0-9._/@-]*`, not a resolver keyword) and in
single-quoted style with doubled inner quotes otherwise — PyYAML's quoting
style for scalars the resolver would reinterpret or that plain style cannot
carry (it leaves some of these plain where my emitter quotes; both
serializations decode to the same document). `parseMappingLines` reads that
language back. -/

/-- `n` spaces of indentation. -/
def spacesC (n : Nat) : List Char := List.replicate n ' '

/-- A character PyYAML keeps plain inside the scalars of this subset. -/
def plainChar (c : Char) : Bool :=
  c.isAlpha || c.isDigit || c == '.' || c == '_' || c == '/' || c == '@' || c == '-'

/-- Lower-cased copy of a string. -/
def lcString (s : String) : String := ⟨s.data.map Char.toLower⟩

/-- A word the YAML resolver would read back as a boolean or null rather
than a string. -/
def yamlReservedWord (s : String) : Bool :=
  ["true", "false", "yes", "no", "on", "off", "null", "y", "n"].contains (lcString s)

/-- A string PyYAML dumps as a plain scalar and loads back as the same
string: non-empty, leading alphabetic character, plain characters only, not
a resolver keyword. -/
def plainSafeString (s : String) : Bool :=
  match s.data with
  | [] => false
  | c :: rest => c.isAlpha && rest.all plainChar && !(yamlReservedWord s)

/-- A string representable on one dumped line: no line-break characters.
(PyYAML falls back to an escaped double-quoted or block style for embedded
line breaks, outside this model.) -/
def singleLineString (s : String) : Bool :=
  s.data.all (fun c => !(c = '\n') && !(c = '\r'))

/-- A value serialized on the key's own line: a single-line string (emitted
plain when plain-safe, single-quoted otherwise, as PyYAML does), a boolean,
or an empty container (emitted in flow form `[]` / `{}`). -/
def scalarLikeOk : Value → Bool
  | .vstr s => singleLineString s
  | .vbool _ => true
  | .vlist xs => xs.isEmpty
  | .vdict kvs => kvs.isEmpty
  | _ => false

/-- Depth-0 well-formed value: scalar-like only. -/
def valueOk0 (v : Value) : Bool := scalarLikeOk v

/-- Depth-1 well-formed value: scalar-like, a non-empty list of scalar-like
items, or a non-empty mapping from plain-safe keys to depth-0 values. -/
def valueOk1 : Value → Bool
  | .vlist (x :: xs) => (x :: xs).all scalarLikeOk
  | .vdict (kv :: kvs) =>
      (kv :: kvs).all (fun kv => plainSafeString kv.1 && valueOk0 kv.2)
  | v => scalarLikeOk v

/-- Depth-2 well-formed value (enough for the recognized vocabulary, whose
deepest values are `omitpolicy`/`annotatepolicy` entries). -/
def valueOk2 : Value → Bool
  | .vlist (x :: xs) => (x :: xs).all scalarLikeOk
  | .vdict (kv :: kvs) =>
      (kv :: kvs).all (fun kv => plainSafeString kv.1 && valueOk1 kv.2)
  | v => scalarLikeOk v

/-- The recognized field vocabulary (spec §6). -/
def vocabKeys : List String :=
  ["credentials", "accesstoken", "baselines", "outputpath", "darkmode",
   "breakglassaccounts", "tenant", "opapath", "customerid", "subjectemail",
   "orgname", "orgunitname", "description", "quiet", "omitpolicy", "annotatepolicy"]

/-- A document containing only the recognized field vocabulary, with values
of the shapes that vocabulary prescribes: single-line string or boolean
scalars, lists of scalars, and (for the policy maps) nested mappings of
scalars under plain identifier keys. -/
def wellFormedDoc (doc : List (String × Value)) : Bool :=
  doc.all (fun kv => vocabKeys.contains kv.1 && valueOk2 kv.2)

/-- Double every single quote, the escape used inside single-quoted YAML
scalars. -/
def escapeQuotes : List Char → List Char
  | [] => []
  | c :: rest =>
      if c = '\'' then '\'' :: '\'' :: escapeQuotes rest
      else c :: escapeQuotes rest

/-- The text of a scalar-like value on a dumped line: booleans and flow
empty containers as keywords; a string plain when plain-safe, otherwise in
single-quoted style with doubled inner quotes (PyYAML quotes any scalar the
resolver would reinterpret or that plain style cannot carry). -/
def scalarText : Value → String
  | .vbool true => "true"
  | .vbool false => "false"
  | .vstr s =>
      if plainSafeString s then s
      else ⟨'\'' :: (escapeQuotes s.data ++ ['\''])⟩
  | .vlist _ => "[]"
  | .vdict _ => "\x7b\x7d"
  | .vnone => "null"
  | .vint n => toString n

/-- The dumped lines of a block sequence: one `- item` line per item, dashes
at the key's indent (PyYAML's default). -/
def dumpListItems (ind : Nat) (items : List Value) : List String :=
  items.map (fun it => (⟨spacesC ind⟩ : String) ++ "- " ++ scalarText it)

mutual

/-- The dumped lines of a block mapping at indent `ind`, keys in insertion
order (`sort_keys=False`). -/
def dumpMapping (ind : Nat) : List (String × Value) → List String
  | [] => []
  | (k, v) :: rest => dumpEntry ind k v ++ dumpMapping ind rest
termination_by kvs => sizeOf kvs

/-- The dumped lines of one mapping entry: scalar-like values inline after
`: `; non-empty sequences and mappings as a block under a bare `key:`. -/
def dumpEntry (ind : Nat) (k : String) (v : Value) : List String :=
  match v with
  | .vlist (x :: xs) =>
      ((⟨spacesC ind⟩ : String) ++ k ++ ":") :: dumpListItems ind (x :: xs)
  | .vdict (kv :: kvs) =>
      ((⟨spacesC ind⟩ : String) ++ k ++ ":") :: dumpMapping (ind + 2) (kv :: kvs)
  | sv => [(⟨spacesC ind⟩ : String) ++ k ++ ": " ++ scalarText sv]
termination_by sizeOf v

end

/-- The dumped lines of a whole document (`yaml.dump` of the cleaned dict):
flow form for the empty mapping, block form otherwise. -/
def dumpTop (kvs : List (String × Value)) : List String :=
  match kvs with
  | [] => ["\x7b\x7d"]
  | _ => dumpMapping 0 kvs

/-- Join lines with newlines, one trailing newline (as `yaml.dump` emits). -/
def unlines (lines : List String) : String :=
  lines.foldr (fun l acc => l ++ "\n" ++ acc) ""

/-- `ConfigGenerator.generate_yaml_config(config, include_comments=False)`
(config_generator.py, lines 40–47): clean, then dump without comments. -/
def generate_yaml_config_nc (config : List (String × Value)) : String :=
  unlines (dumpTop (clean_config_dict config))

/-- Split a line at its first `:`, returning the parts before and after. -/
def splitAtColon : List Char → Option (List Char × List Char)
  | [] => none
  | c :: rest =>
      if c = ':' then some ([], rest)
      else
        match splitAtColon rest with
        | some (k, r) => some (c :: k, r)
        | none => none

/-- Undo the single-quoted body of a scalar: consume up to the closing
quote, turning doubled quotes back into single ones; `none` on a stray
quote or a missing terminator. -/
def unquoteBody : List Char → Option (List Char)
  | [] => none
  | c :: rest =>
      if c = '\'' then
        match rest with
        | [] => some []
        | d :: rest2 =>
            if d = '\'' then (unquoteBody rest2).map (fun t => '\'' :: t)
            else none
      else (unquoteBody rest).map (fun t => c :: t)

/-- Read one scalar token back: a single-quoted token to its unescaped
string, resolver keywords to booleans, flow forms to the empty containers,
anything else to a plain string. -/
def parseScalarToken (cs : List Char) : Value :=
  match cs with
  | [] => .vstr ""
  | c :: rest =>
      if c = '\'' then
        match unquoteBody rest with
        | some mid => .vstr ⟨mid⟩
        | none => .vstr ⟨c :: rest⟩
      else if c :: rest = "true".data then .vbool true
      else if c :: rest = "false".data then .vbool false
      else if c :: rest = "[]".data then .vlist []
      else if c :: rest = "\x7b\x7d".data then .vdict []
      else .vstr ⟨c :: rest⟩

/-- A line that belongs to the block value of an entry at indent `ind`:
indented at least two further spaces, or a sequence item at the key's own
indent. -/
def belongsTo (ind : Nat) (l : String) : Bool :=
  (spacesC (ind + 2)).isPrefixOf l.data || (spacesC ind ++ "- ".data).isPrefixOf l.data

/-- A line that starts a mapping entry at indent `ind`: exactly that many
leading spaces, then a character that is neither a space nor a dash. -/
def isEntryLine (ind : Nat) (l : String) : Bool :=
  (l.data.take ind == spacesC ind)
    && match l.data.drop ind with
       | [] => false
       | c :: _ => !(c = ' ') && !(c = '-')

/-- Read the items of a block sequence at indent `ind`: every line must be
`- item` at that indent. -/
def parseListItems (ind : Nat) : List String → Option (List Value)
  | [] => some []
  | l :: rest =>
      if (spacesC ind ++ "- ".data).isPrefixOf l.data then
        match parseListItems ind rest with
        | none => none
        | some items => some (parseScalarToken (l.data.drop (ind + 2)) :: items)
      else none

mutual

/-- Read the entries of a block mapping at indent `ind`, returning them with
the unconsumed lines: scalar entries inline, block values from the lines
that belong to them. -/
def parseMappingLines (ind : Nat) (lines : List String) :
    Option (List (String × Value) × List String) :=
  match lines with
  | [] => some ([], [])
  | line :: rest =>
      if isEntryLine ind line then
        match splitAtColon (line.data.drop ind) with
        | none => none
        | some (keyCs, afterColon) =>
            match afterColon with
            | [] =>
                match parseBlockValue ind (rest.takeWhile (belongsTo ind)) with
                | none => none
                | some v =>
                    match parseMappingLines ind (rest.dropWhile (belongsTo ind)) with
                    | none => none
                    | some (kvs, rem) => some (((⟨keyCs⟩ : String), v) :: kvs, rem)
            | ' ' :: scalarCs =>
                match parseMappingLines ind rest with
                | none => none
                | some (kvs, rem) =>
                    some (((⟨keyCs⟩ : String), parseScalarToken scalarCs) :: kvs, rem)
            | _ => none
      else some ([], lines)
termination_by (lines.length, 0)
decreasing_by
  all_goals simp_wf
  all_goals
    first
      | (have h := (@List.takeWhile_sublist String rest (belongsTo ind)).length_le; omega)
      | (have h := (@List.dropWhile_sublist String rest (belongsTo ind)).length_le; omega)

/-- Read the block value of an entry at indent `ind` from the lines that
belong to it: a sequence if they start with a dash item, a non-empty nested
mapping two spaces deeper otherwise. -/
def parseBlockValue (ind : Nat) (block : List String) : Option Value :=
  match block with
  | [] => none
  | l :: rest =>
      if (spacesC ind ++ "- ".data).isPrefixOf l.data then
        match parseListItems ind (l :: rest) with
        | none => none
        | some items => some (.vlist items)
      else
        match parseMappingLines (ind + 2) (l :: rest) with
        | none => none
        | some (kvs, []) => if kvs.isEmpty then none else some (.vdict kvs)
        | some (_, _ :: _) => none
termination_by (block.length, 1)
decreasing_by
  all_goals simp_wf
  all_goals omega

end

/-- Read a whole dumped document back (`yaml.safe_load` on the emitted
subset): the flow empty mapping, or a block mapping consuming every line. -/
def parseTop (lines : List String) : Option Value :=
  if lines = [("\x7b\x7d" : String)] then some (.vdict [])
  else
    match parseMappingLines 0 lines with
    | some (kvs, []) => if kvs.isEmpty then none else some (.vdict kvs)
    | _ => none

/-- `yaml.safe_load` on a document text: split into lines, drop empty
lines (the dumped text ends with a newline), parse the block mapping. -/
def parseYamlText (text : String) : Option Value :=
  parseTop (((splitOnChar '\n' text.data).map (fun cs => (⟨cs⟩ : String))).filter
    (fun l => !(l = "")))

/-- The YAML decoder of `load_config_file`, as an `Except`-valued decoder
over the modelled subset. -/
def yamlDecodeModel (s : String) : Except String Value :=
  match parseYamlText s with
  | some v => .ok v
  | none => .error "yaml error"

/-! ### Utility lemmas for the round-trip proof -/

theorem stringMk_data (s : String) : (⟨s.data⟩ : String) = s := rfl

theorem isPrefixOf_append_same (a : List Char) (b d : List Char) :
    (a ++ b).isPrefixOf (a ++ d) = b.isPrefixOf d := by
  induction a with
  | nil => rfl
  | cons x xs ih => simp [List.isPrefixOf, ih]

theorem isPrefixOf_self_append (a b : List Char) : a.isPrefixOf (a ++ b) = true := by
  exact List.isPrefixOf_iff_prefix.mpr (List.prefix_append a b)

theorem splitAtColon_append (ks rest : List Char) (hks : ∀ c ∈ ks, c ≠ ':') :
    splitAtColon (ks ++ ':' :: rest) = some (ks, rest) := by
  induction ks with
  | nil => simp [splitAtColon]
  | cons c cs ih =>
      have hc : ¬ c = ':' := hks c (List.mem_cons_self _ _)
      simp only [List.cons_append, splitAtColon, if_neg hc, List.append_eq]
      rw [ih (fun d hd => hks d (List.mem_cons_of_mem _ hd))]

theorem takeWhile_append_boundary (p : String → Bool) (xs ys : List String)
    (hxs : ∀ x ∈ xs, p x = true) (hys : ∀ l, ys.head? = some l → p l = false) :
    (xs ++ ys).takeWhile p = xs ∧ (xs ++ ys).dropWhile p = ys := by
  induction xs with
  | nil =>
      cases ys with
      | nil => simp
      | cons l ls =>
          have := hys l rfl
          simp [List.takeWhile, List.dropWhile, this]
  | cons x xs ih =>
      have hx : p x = true := hxs x (List.mem_cons_self _ _)
      have := ih (fun y hy => hxs y (List.mem_cons_of_mem _ hy))
      simp [List.takeWhile, List.dropWhile, hx, this.1, this.2]

theorem splitOnChar_append_sep (sep : Char) (xs ys : List Char)
    (hxs : ∀ c ∈ xs, c ≠ sep) :
    splitOnChar sep (xs ++ sep :: ys) = xs :: splitOnChar sep ys := by
  induction xs with
  | nil => simp [splitOnChar]
  | cons c cs ih =>
      have hc : ¬ c = sep := hxs c (List.mem_cons_self _ _)
      simp only [List.cons_append, splitOnChar, if_neg hc, List.append_eq]
      rw [ih (fun d hd => hxs d (List.mem_cons_of_mem _ hd))]

theorem unlines_cons (l : String) (ls : List String) :
    unlines (l :: ls) = l ++ "\n" ++ unlines ls := rfl

theorem splitOnChar_unlines (lines : List String)
    (h : ∀ l ∈ lines, ∀ c ∈ l.data, c ≠ '\n') :
    splitOnChar '\n' (unlines lines).data = lines.map String.data ++ [[]] := by
  induction lines with
  | nil => simp [unlines, splitOnChar]
  | cons l ls ih =>
      rw [unlines_cons]
      have hdata : (l ++ "\n" ++ unlines ls).data = l.data ++ '\n' :: (unlines ls).data := by
        simp [String.data_append]
      rw [hdata, splitOnChar_append_sep '\n' l.data _ (h l (List.mem_cons_self _ _)),
        ih (fun l hl => h l (List.mem_cons_of_mem _ hl))]
      simp

theorem parsedLines_of_unlines (lines : List String)
    (hnl : ∀ l ∈ lines, ∀ c ∈ l.data, c ≠ '\n')
    (hne : ∀ l ∈ lines, l ≠ "") :
    ((splitOnChar '\n' (unlines lines).data).map (fun cs => (⟨cs⟩ : String))).filter
        (fun l => !(l = ""))
      = lines := by
  rw [splitOnChar_unlines lines hnl]
  rw [List.map_append, List.map_map]
  have h1 : lines.map ((fun cs => (⟨cs⟩ : String)) ∘ String.data) = lines := by
    have hid : ((fun cs => (⟨cs⟩ : String)) ∘ String.data) = id := by
      funext s; rfl
    rw [hid, List.map_id]
  rw [h1, List.filter_append]
  have h2 : (([([] : List Char)]).map (fun cs => (⟨cs⟩ : String))).filter
      (fun l => !(l = "")) = [] := rfl
  rw [h2, List.append_nil]
  apply List.filter_eq_self.mpr
  intro l hl
  simp [hne l hl]

theorem alpha_ne_special (c : Char) (h : c.isAlpha = true) :
    c ≠ ' ' ∧ c ≠ '-' ∧ c ≠ ':' ∧ c ≠ '\n' ∧ c ≠ '\x7b' ∧ c ≠ '\'' := by
  refine ⟨?_, ?_, ?_, ?_, ?_, ?_⟩ <;> rintro rfl <;> exact absurd h (by decide)

theorem plainChar_ne_special (c : Char) (h : plainChar c = true) :
    c ≠ ':' ∧ c ≠ '\n' := by
  refine ⟨?_, ?_⟩ <;> rintro rfl <;> exact absurd h (by decide)

theorem plainSafe_shape (k : String) (h : plainSafeString k = true) :
    ∃ c cs, k.data = c :: cs ∧ c.isAlpha = true ∧ cs.all plainChar = true := by
  unfold plainSafeString at h
  cases hk : k.data with
  | nil => rw [hk] at h; simp at h
  | cons c cs =>
      rw [hk] at h
      simp only [Bool.and_eq_true] at h
      exact ⟨c, cs, rfl, h.1.1, h.1.2⟩

theorem plainSafe_no_colon (k : String) (h : plainSafeString k = true) :
    ∀ c ∈ k.data, c ≠ ':' := by
  obtain ⟨c, cs, hk, hc, hcs⟩ := plainSafe_shape k h
  intro d hd
  rw [hk] at hd
  rcases List.mem_cons.mp hd with h1 | h2
  · subst h1; exact (alpha_ne_special d hc).2.2.1
  · exact (plainChar_ne_special d (List.all_eq_true.mp hcs d h2)).1

theorem plainSafe_no_newline (k : String) (h : plainSafeString k = true) :
    ∀ c ∈ k.data, c ≠ '\n' := by
  obtain ⟨c, cs, hk, hc, hcs⟩ := plainSafe_shape k h
  intro d hd
  rw [hk] at hd
  rcases List.mem_cons.mp hd with h1 | h2
  · subst h1; exact (alpha_ne_special d hc).2.2.2.1
  · exact (plainChar_ne_special d (List.all_eq_true.mp hcs d h2)).2

theorem mem_escapeQuotes (cs : List Char) (c : Char) (h : c ∈ escapeQuotes cs) :
    c ∈ cs ∨ c = '\'' := by
  induction cs with
  | nil => cases h
  | cons d rest ih =>
      by_cases hd : d = '\''
      · subst hd
        rw [escapeQuotes, if_pos rfl] at h
        rcases List.mem_cons.mp h with h1 | h2
        · exact Or.inr h1
        · rcases List.mem_cons.mp h2 with h3 | h4
          · exact Or.inr h3
          · rcases ih h4 with h5 | h6
            · exact Or.inl (List.mem_cons_of_mem _ h5)
            · exact Or.inr h6
      · rw [escapeQuotes, if_neg hd] at h
        rcases List.mem_cons.mp h with h1 | h2
        · exact Or.inl (h1 ▸ List.mem_cons_self _ _)
        · rcases ih h2 with h3 | h4
          · exact Or.inl (List.mem_cons_of_mem _ h3)
          · exact Or.inr h4

theorem singleLine_no_newline (s : String) (h : singleLineString s = true) :
    ∀ c ∈ s.data, c ≠ '\n' := by
  intro d hd
  have hh := List.all_eq_true.mp h d hd
  rw [Bool.and_eq_true] at hh
  simpa using hh.1

theorem unquoteBody_escape (cs : List Char) :
    unquoteBody (escapeQuotes cs ++ ['\'']) = some cs := by
  induction cs with
  | nil =>
      show unquoteBody ('\'' :: []) = some []
      rw [unquoteBody.eq_def]
      simp
  | cons c rest ih =>
      by_cases hc : c = '\''
      · subst hc
        have hesc : escapeQuotes ('\'' :: rest) = '\'' :: '\'' :: escapeQuotes rest := by
          rw [escapeQuotes, if_pos rfl]
        rw [hesc]
        show unquoteBody ('\'' :: ('\'' :: (escapeQuotes rest ++ ['\'']))) = _
        rw [unquoteBody.eq_def]
        simp [ih]
      · have hesc : escapeQuotes (c :: rest) = c :: escapeQuotes rest := by
          rw [escapeQuotes, if_neg hc]
        rw [hesc]
        show unquoteBody (c :: (escapeQuotes rest ++ ['\''])) = _
        rw [unquoteBody.eq_def]
        simp [hc, ih]

theorem scalarText_no_newline (v : Value) (h : scalarLikeOk v = true) :
    ∀ c ∈ (scalarText v).data, c ≠ '\n' := by
  cases v with
  | vstr s =>
      have hsl : singleLineString s = true := h
      by_cases hps : plainSafeString s = true
      · rw [show scalarText (.vstr s) = s from by simp [scalarText, hps]]
        exact singleLine_no_newline s hsl
      · rw [show scalarText (.vstr s) = ⟨'\'' :: (escapeQuotes s.data ++ ['\''])⟩ from by
          simp [scalarText, hps]]
        intro d hd
        rcases List.mem_cons.mp hd with h1 | h2
        · subst h1; decide
        · rcases List.mem_append.mp h2 with h3 | h4
          · rcases mem_escapeQuotes _ _ h3 with h5 | h6
            · exact singleLine_no_newline s hsl d h5
            · subst h6; decide
          · rcases List.mem_cons.mp h4 with h5 | h6
            · subst h5; decide
            · cases h6
  | vbool b =>
      cases b
      · show ∀ c ∈ ("false" : String).data, c ≠ '\n'
        decide
      · show ∀ c ∈ ("true" : String).data, c ≠ '\n'
        decide
  | vlist xs =>
      show ∀ c ∈ ("[]" : String).data, c ≠ '\n'
      decide
  | vdict kvs =>
      show ∀ c ∈ ("\x7b\x7d" : String).data, c ≠ '\n'
      decide
  | vnone => exact absurd h (by decide)
  | vint n => simp [scalarLikeOk] at h

theorem parseScalarToken_scalarText (v : Value) (h : scalarLikeOk v = true) :
    parseScalarToken (scalarText v).data = v := by
  cases v with
  | vbool b => cases b <;> rfl
  | vlist xs =>
      have hx : xs = [] := by simpa [scalarLikeOk, List.isEmpty_iff] using h
      subst hx; rfl
  | vdict kvs =>
      have hx : kvs = [] := by simpa [scalarLikeOk, List.isEmpty_iff] using h
      subst hx; rfl
  | vnone => exact absurd h (by decide)
  | vint n => simp [scalarLikeOk] at h
  | vstr s =>
      by_cases hps : plainSafeString s = true
      · obtain ⟨c, cs, hkd, hc, hcs⟩ := plainSafe_shape s hps
        have hq : ¬ c = '\'' := (alpha_ne_special c hc).2.2.2.2.2
        have h1 : ¬ s.data = "true".data := by
          intro he; rw [String.ext he] at hps; exact absurd hps (by decide)
        have h2 : ¬ s.data = "false".data := by
          intro he; rw [String.ext he] at hps; exact absurd hps (by decide)
        have h3 : ¬ s.data = "[]".data := by
          intro he; rw [String.ext he] at hps; exact absurd hps (by decide)
        have h4 : ¬ s.data = "\x7b\x7d".data := by
          intro he; rw [String.ext he] at hps; exact absurd hps (by decide)
        rw [hkd] at h1 h2 h3 h4
        rw [show scalarText (.vstr s) = s from by simp [scalarText, hps]]
        rw [show s.data = c :: cs from hkd]
        rw [parseScalarToken, if_neg hq, if_neg h1, if_neg h2, if_neg h3, if_neg h4]
        rw [← hkd]
      · rw [show scalarText (.vstr s) = ⟨'\'' :: (escapeQuotes s.data ++ ['\''])⟩ from by
          simp [scalarText, hps]]
        show parseScalarToken ('\'' :: (escapeQuotes s.data ++ ['\''])) = .vstr s
        rw [parseScalarToken, if_pos rfl, unquoteBody_escape]

theorem take_spaces_append (n : Nat) (cs : List Char) :
    (spacesC n ++ cs).take n = spacesC n := by
  induction n with
  | zero => rfl
  | succ m ih =>
      show (' ' :: (spacesC m ++ cs)).take (m + 1) = ' ' :: spacesC m
      rw [List.take_succ_cons, ih]

theorem drop_spaces_append (n : Nat) (cs : List Char) :
    (spacesC n ++ cs).drop n = cs := by
  induction n with
  | zero => rfl
  | succ m ih =>
      show (' ' :: (spacesC m ++ cs)).drop (m + 1) = cs
      rw [List.drop_succ_cons, ih]

theorem isEntryLine_of (ind : Nat) (c : Char) (cs : List Char) (hc : c.isAlpha = true)
    (l : String) (hl : l.data = spacesC ind ++ c :: cs) :
    isEntryLine ind l = true := by
  have h1 := (alpha_ne_special c hc).1
  have h2 := (alpha_ne_special c hc).2.1
  unfold isEntryLine
  rw [hl, take_spaces_append, drop_spaces_append]
  simp [h1, h2]

theorem spacesC_add_two (ind : Nat) : spacesC (ind + 2) = spacesC ind ++ [' ', ' '] := by
  simp [spacesC, List.replicate_add]

theorem belongsTo_eq_false_of (ind : Nat) (c : Char) (cs : List Char) (hc : c.isAlpha = true)
    (l : String) (hl : l.data = spacesC ind ++ c :: cs) :
    belongsTo ind l = false := by
  have hsc : (' ' == c) = false :=
    beq_eq_false_iff_ne.mpr (Ne.symm (alpha_ne_special c hc).1)
  have hdc : ('-' == c) = false :=
    beq_eq_false_iff_ne.mpr (Ne.symm (alpha_ne_special c hc).2.1)
  unfold belongsTo
  rw [hl, spacesC_add_two]
  rw [show ("- ".data) = ['-', ' '] from rfl]
  rw [isPrefixOf_append_same, isPrefixOf_append_same]
  simp [List.isPrefixOf, hsc, hdc]

theorem belongsTo_inner_true (ind : Nat) (cs : List Char) (l : String)
    (hl : l.data = spacesC (ind + 2) ++ cs) : belongsTo ind l = true := by
  unfold belongsTo
  rw [hl, isPrefixOf_self_append]
  simp

theorem belongsTo_dash_true (ind : Nat) (cs : List Char) (l : String)
    (hl : l.data = spacesC ind ++ '-' :: ' ' :: cs) : belongsTo ind l = true := by
  unfold belongsTo
  rw [hl]
  rw [show spacesC ind ++ '-' :: ' ' :: cs = (spacesC ind ++ "- ".data) ++ cs by simp]
  rw [isPrefixOf_self_append]
  simp

theorem dash_prefix_false_of_inner (ind : Nat) (cs : List Char) :
    (spacesC ind ++ "- ".data).isPrefixOf (spacesC (ind + 2) ++ cs) = false := by
  rw [spacesC_add_two]
  rw [show spacesC ind ++ [' ', ' '] ++ cs = spacesC ind ++ (' ' :: ' ' :: cs) by simp]
  rw [isPrefixOf_append_same]
  simp [List.isPrefixOf]

/-- Structural facts about a dumped line of a mapping at indent `ind`:
indented at least by the entry indent, newline-free, non-empty. -/
def LineOk (ind : Nat) (l : String) : Prop :=
  (spacesC ind).isPrefixOf l.data = true ∧ (∀ c ∈ l.data, c ≠ '\n') ∧ l.data ≠ []

/-- The round-trip contract of one value `v` as a mapping entry: its dumped
lines are well-shaped, and parsing them from the front of a mapping block at
the key's indent recovers exactly `(k, v)` followed by the parse of whatever
comes after. -/
def ValueRT (v : Value) : Prop :=
  ∀ (ind : Nat) (k : String), plainSafeString k = true →
    (∀ l ∈ dumpEntry ind k v, LineOk ind l)
      ∧ ∀ tail : List String,
          (∀ l, tail.head? = some l → belongsTo ind l = false) →
          parseMappingLines ind (dumpEntry ind k v ++ tail)
            = (parseMappingLines ind tail).map (fun pr => ((k, v) :: pr.1, pr.2))

theorem dumpMapping_linesOk (ind : Nat) (kvs : List (String × Value))
    (h : ∀ kv ∈ kvs, plainSafeString kv.1 = true ∧ ValueRT kv.2) :
    ∀ l ∈ dumpMapping ind kvs, LineOk ind l := by
  induction kvs with
  | nil => intro l hl; rw [dumpMapping] at hl; cases hl
  | cons kv rest ih =>
      obtain ⟨k, v⟩ := kv
      intro l hl
      rw [dumpMapping] at hl
      rcases List.mem_append.mp hl with h1 | h2
      · have hh := h (k, v) (List.mem_cons_self _ _)
        exact (hh.2 ind k hh.1).1 l h1
      · exact ih (fun kv hkv => h kv (List.mem_cons_of_mem _ hkv)) l h2

theorem dumpEntry_head_shape (ind : Nat) (k : String) (v : Value) :
    ∃ (l : String) (suffix : List Char) (rest : List String),
      dumpEntry ind k v = l :: rest ∧ l.data = spacesC ind ++ (k.data ++ suffix) := by
  cases v with
  | vlist xs =>
      cases xs with
      | nil =>
          exact ⟨_, (": " ++ scalarText (.vlist [])).data, [], by rw [dumpEntry] <;> (intro a b hcon; simp at hcon), by
            simp [String.data_append, List.append_assoc]⟩
      | cons x xs =>
          exact ⟨_, (":" : String).data, dumpListItems ind (x :: xs), by rw [dumpEntry], by
            simp [String.data_append, List.append_assoc]⟩
  | vdict kvs =>
      cases kvs with
      | nil =>
          exact ⟨_, (": " ++ scalarText (.vdict [])).data, [], by rw [dumpEntry] <;> (intro a b hcon; simp at hcon), by
            simp [String.data_append, List.append_assoc]⟩
      | cons kv kvs =>
          exact ⟨_, (":" : String).data, dumpMapping (ind + 2) (kv :: kvs), by rw [dumpEntry], by
            simp [String.data_append, List.append_assoc]⟩
  | vnone =>
      exact ⟨_, (": " ++ scalarText .vnone).data, [], by rw [dumpEntry] <;> (intro a b hcon; simp at hcon), by
        simp [String.data_append, List.append_assoc]⟩
  | vbool b =>
      exact ⟨_, (": " ++ scalarText (.vbool b)).data, [], by rw [dumpEntry] <;> (intro a b hcon; simp at hcon), by
        simp [String.data_append, List.append_assoc]⟩
  | vint n =>
      exact ⟨_, (": " ++ scalarText (.vint n)).data, [], by rw [dumpEntry] <;> (intro a b hcon; simp at hcon), by
        simp [String.data_append, List.append_assoc]⟩
  | vstr s =>
      exact ⟨_, (": " ++ scalarText (.vstr s)).data, [], by rw [dumpEntry] <;> (intro a b hcon; simp at hcon), by
        simp [String.data_append, List.append_assoc]⟩

theorem dumpMapping_head_not_belongs (ind : Nat) (kvs : List (String × Value))
    (h : ∀ kv ∈ kvs, plainSafeString kv.1 = true) :
    ∀ l, (dumpMapping ind kvs).head? = some l → belongsTo ind l = false := by
  intro l hl
  cases kvs with
  | nil => rw [dumpMapping] at hl; cases hl
  | cons kv rest =>
      obtain ⟨k, v⟩ := kv
      rw [dumpMapping] at hl
      obtain ⟨l0, suffix, erest, he, hdata⟩ := dumpEntry_head_shape ind k v
      rw [he] at hl
      simp only [List.cons_append, List.head?_cons, Option.some.injEq] at hl
      subst hl
      obtain ⟨c, cs, hk, hc, _⟩ := plainSafe_shape k (h (k, v) (List.mem_cons_self _ _))
      refine belongsTo_eq_false_of ind c (cs ++ suffix) hc _ ?_
      rw [hdata, hk]
      simp

theorem parse_dumpMapping (kvs : List (String × Value)) (ind : Nat)
    (h : ∀ kv ∈ kvs, plainSafeString kv.1 = true ∧ ValueRT kv.2) :
    parseMappingLines ind (dumpMapping ind kvs) = some (kvs, []) := by
  induction kvs with
  | nil => rw [dumpMapping, parseMappingLines]
  | cons kv rest ih =>
      obtain ⟨k, v⟩ := kv
      rw [dumpMapping]
      have hh := h (k, v) (List.mem_cons_self _ _)
      have hrt := (hh.2 ind k hh.1).2 (dumpMapping ind rest)
        (dumpMapping_head_not_belongs ind rest
          (fun kv hkv => (h kv (List.mem_cons_of_mem _ hkv)).1))
      rw [hrt, ih (fun kv hkv => h kv (List.mem_cons_of_mem _ hkv))]
      rfl

theorem valueRT_scalar (v : Value) (h : scalarLikeOk v = true) : ValueRT v := by
  intro ind k hk
  obtain ⟨c, cs, hkd, hc, hcs⟩ := plainSafe_shape k hk
  have hde : dumpEntry ind k v = [(⟨spacesC ind⟩ : String) ++ k ++ ": " ++ scalarText v] := by
    cases v with
    | vlist xs =>
        cases xs with
        | nil => rw [dumpEntry] <;> (intro a b hcon; simp at hcon)
        | cons x xs => exact absurd h (by simp [scalarLikeOk])
    | vdict kvs =>
        cases kvs with
        | nil => rw [dumpEntry] <;> (intro a b hcon; simp at hcon)
        | cons kv kvs => exact absurd h (by simp [scalarLikeOk])
    | vnone => rw [dumpEntry] <;> (intro a b hcon; simp at hcon)
    | vbool b => rw [dumpEntry] <;> (intro a b hcon; simp at hcon)
    | vint n => rw [dumpEntry] <;> (intro a b hcon; simp at hcon)
    | vstr s => rw [dumpEntry] <;> (intro a b hcon; simp at hcon)
  have hld : ((⟨spacesC ind⟩ : String) ++ k ++ ": " ++ scalarText v).data
      = spacesC ind ++ (k.data ++ ':' :: ' ' :: (scalarText v).data) := by
    simp [String.data_append]
  have hld2 : ((⟨spacesC ind⟩ : String) ++ k ++ ": " ++ scalarText v).data
      = spacesC ind ++ c :: (cs ++ ':' :: ' ' :: (scalarText v).data) := by
    rw [hld, hkd]; simp
  constructor
  · intro l hl
    rw [hde] at hl
    simp only [List.mem_singleton] at hl
    subst hl
    refine ⟨?_, ?_, ?_⟩
    · rw [hld]; exact isPrefixOf_self_append _ _
    · rw [hld]
      intro d hd
      rcases List.mem_append.mp hd with h1 | h2
      · rw [spacesC] at h1
        rw [List.eq_of_mem_replicate h1]; decide
      · rcases List.mem_append.mp h2 with h3 | h4
        · exact plainSafe_no_newline k hk d h3
        · rcases List.mem_cons.mp h4 with h5 | h6
          · subst h5; decide
          · rcases List.mem_cons.mp h6 with h7 | h8
            · subst h7; decide
            · exact scalarText_no_newline v h d h8
    · rw [hld2]; simp
  · intro tail htail
    have hentry : isEntryLine ind ((⟨spacesC ind⟩ : String) ++ k ++ ": " ++ scalarText v)
        = true := isEntryLine_of ind c _ hc _ hld2
    have hdrop : (((⟨spacesC ind⟩ : String) ++ k ++ ": " ++ scalarText v)).data.drop ind
        = k.data ++ ':' :: ' ' :: (scalarText v).data := by
      rw [hld]; exact drop_spaces_append _ _
    have hsplit : splitAtColon
        ((((⟨spacesC ind⟩ : String) ++ k ++ ": " ++ scalarText v)).data.drop ind)
        = some (k.data, ' ' :: (scalarText v).data) := by
      rw [hdrop]
      exact splitAtColon_append _ _ (plainSafe_no_colon k hk)
    rw [hde, List.singleton_append, parseMappingLines, if_pos hentry, hsplit]
    cases hpt : parseMappingLines ind tail with
    | none => simp [parseScalarToken_scalarText v h]
    | some pr => simp [parseScalarToken_scalarText v h]

theorem headline_lineOk (ind : Nat) (k : String) (hk : plainSafeString k = true) :
    LineOk ind ((⟨spacesC ind⟩ : String) ++ k ++ ":") := by
  obtain ⟨c, cs, hkd, hc, hcs⟩ := plainSafe_shape k hk
  have hld : ((⟨spacesC ind⟩ : String) ++ k ++ ":").data
      = spacesC ind ++ (k.data ++ [':']) := by simp [String.data_append]
  refine ⟨by rw [hld]; exact isPrefixOf_self_append _ _, ?_, by rw [hld, hkd]; simp⟩
  rw [hld]
  intro d hd
  rcases List.mem_append.mp hd with h1 | h2
  · rw [spacesC] at h1
    rw [List.eq_of_mem_replicate h1]; decide
  · rcases List.mem_append.mp h2 with h3 | h4
    · exact plainSafe_no_newline k hk d h3
    · rcases List.mem_cons.mp h4 with h5 | h6
      · subst h5; decide
      · cases h6

theorem parse_dumpListItems (ind : Nat) (items : List Value)
    (h : items.all scalarLikeOk = true) :
    parseListItems ind (dumpListItems ind items) = some items := by
  induction items with
  | nil => rfl
  | cons x xs ih =>
      have hx : scalarLikeOk x = true := List.all_eq_true.mp h x (List.mem_cons_self _ _)
      have hxs : xs.all scalarLikeOk = true :=
        List.all_eq_true.mpr (fun y hy => List.all_eq_true.mp h y (List.mem_cons_of_mem _ hy))
      have hline : ((⟨spacesC ind⟩ : String) ++ "- " ++ scalarText x).data
          = (spacesC ind ++ "- ".data) ++ (scalarText x).data := by
        simp [String.data_append]
      have hpre : ((spacesC ind ++ "- ".data).isPrefixOf
          ((⟨spacesC ind⟩ : String) ++ "- " ++ scalarText x).data) = true := by
        rw [hline]; exact isPrefixOf_self_append _ _
      have hdrop : (((⟨spacesC ind⟩ : String) ++ "- " ++ scalarText x).data).drop (ind + 2)
          = (scalarText x).data := by
        rw [hline]
        have hlen : (spacesC ind ++ "- ".data).length = ind + 2 := by simp [spacesC]
        rw [← hlen]
        exact List.drop_left _ _
      show parseListItems ind (((⟨spacesC ind⟩ : String) ++ "- " ++ scalarText x)
          :: dumpListItems ind xs) = some (x :: xs)
      rw [parseListItems, if_pos hpre, ih hxs, hdrop, parseScalarToken_scalarText x hx]

theorem valueRT_list (x : Value) (xs : List Value)
    (h : (x :: xs).all scalarLikeOk = true) : ValueRT (.vlist (x :: xs)) := by
  intro ind k hk
  obtain ⟨c, cs, hkd, hc, hcs⟩ := plainSafe_shape k hk
  have hde : dumpEntry ind k (.vlist (x :: xs))
      = ((⟨spacesC ind⟩ : String) ++ k ++ ":") :: dumpListItems ind (x :: xs) := by
    rw [dumpEntry]
  have hld : ((⟨spacesC ind⟩ : String) ++ k ++ ":").data
      = spacesC ind ++ (k.data ++ [':']) := by simp [String.data_append]
  have hld2 : ((⟨spacesC ind⟩ : String) ++ k ++ ":").data
      = spacesC ind ++ c :: (cs ++ [':']) := by rw [hld, hkd]; simp
  have hitem : ∀ l ∈ dumpListItems ind (x :: xs),
      ∃ it, it ∈ (x :: xs) ∧ l.data = (spacesC ind ++ "- ".data) ++ (scalarText it).data := by
    intro l hl
    obtain ⟨it, hit, hmap⟩ := List.mem_map.mp hl
    exact ⟨it, hit, by rw [← hmap]; simp [String.data_append]⟩
  constructor
  · intro l hl
    rw [hde] at hl
    rcases List.mem_cons.mp hl with h1 | h2
    · subst h1; exact headline_lineOk ind k hk
    · obtain ⟨it, hit, hldata⟩ := hitem l h2
      have hsok : scalarLikeOk it = true := List.all_eq_true.mp h it hit
      refine ⟨?_, ?_, ?_⟩
      · rw [hldata]
        rw [show (spacesC ind ++ "- ".data) ++ (scalarText it).data
            = spacesC ind ++ ("- ".data ++ (scalarText it).data) by simp]
        exact isPrefixOf_self_append _ _
      · rw [hldata]
        intro d hd
        rcases List.mem_append.mp hd with h1 | h2
        · rcases List.mem_append.mp h1 with h3 | h4
          · rw [spacesC] at h3
            rw [List.eq_of_mem_replicate h3]; decide
          · rcases List.mem_cons.mp h4 with h5 | h6
            · subst h5; decide
            · rcases List.mem_cons.mp h6 with h7 | h8
              · subst h7; decide
              · cases h8
        · exact scalarText_no_newline it hsok d h2
      · rw [hldata]; simp
  · intro tail htail
    have hentry : isEntryLine ind ((⟨spacesC ind⟩ : String) ++ k ++ ":") = true :=
      isEntryLine_of ind c _ hc _ hld2
    have hdrop : (((⟨spacesC ind⟩ : String) ++ k ++ ":").data).drop ind
        = k.data ++ [':'] := by
      rw [hld]; exact drop_spaces_append _ _
    have hsplit : splitAtColon ((((⟨spacesC ind⟩ : String) ++ k ++ ":").data).drop ind)
        = some (k.data, []) := by
      rw [hdrop]
      exact splitAtColon_append k.data [] (plainSafe_no_colon k hk)
    have hbelongs : ∀ l ∈ dumpListItems ind (x :: xs), belongsTo ind l = true := by
      intro l hl
      obtain ⟨it, hit, hldata⟩ := hitem l hl
      exact belongsTo_dash_true ind ((scalarText it).data) l (by rw [hldata]; simp)
    have hsplit2 := takeWhile_append_boundary (belongsTo ind)
      (dumpListItems ind (x :: xs)) tail hbelongs htail
    have hpbv : parseBlockValue ind (dumpListItems ind (x :: xs))
        = some (.vlist (x :: xs)) := by
      have hpre : ((spacesC ind ++ "- ".data).isPrefixOf
          ((⟨spacesC ind⟩ : String) ++ "- " ++ scalarText x).data) = true := by
        rw [show ((⟨spacesC ind⟩ : String) ++ "- " ++ scalarText x).data
            = (spacesC ind ++ "- ".data) ++ (scalarText x).data by simp [String.data_append]]
        exact isPrefixOf_self_append _ _
      show parseBlockValue ind (((⟨spacesC ind⟩ : String) ++ "- " ++ scalarText x)
          :: dumpListItems ind xs) = some (.vlist (x :: xs))
      rw [parseBlockValue, if_pos hpre]
      rw [show ((⟨spacesC ind⟩ : String) ++ "- " ++ scalarText x) :: dumpListItems ind xs
          = dumpListItems ind (x :: xs) from rfl]
      rw [parse_dumpListItems ind (x :: xs) h]
    rw [hde, List.cons_append, parseMappingLines, if_pos hentry, hsplit,
      hsplit2.1, hsplit2.2, hpbv]
    cases hpt : parseMappingLines ind tail with
    | none => simp
    | some pr => simp

theorem valueRT_dict (k0 : String) (v0 : Value) (kvs : List (String × Value))
    (h : ∀ kv ∈ ((k0, v0) :: kvs), plainSafeString kv.1 = true ∧ ValueRT kv.2) :
    ValueRT (.vdict ((k0, v0) :: kvs)) := by
  intro ind k hk
  obtain ⟨c, cs, hkd, hc, hcs⟩ := plainSafe_shape k hk
  have hde : dumpEntry ind k (.vdict ((k0, v0) :: kvs))
      = ((⟨spacesC ind⟩ : String) ++ k ++ ":") :: dumpMapping (ind + 2) ((k0, v0) :: kvs) := by
    rw [dumpEntry]
  have hld : ((⟨spacesC ind⟩ : String) ++ k ++ ":").data
      = spacesC ind ++ (k.data ++ [':']) := by simp [String.data_append]
  have hld2 : ((⟨spacesC ind⟩ : String) ++ k ++ ":").data
      = spacesC ind ++ c :: (cs ++ [':']) := by rw [hld, hkd]; simp
  have hinner := dumpMapping_linesOk (ind + 2) ((k0, v0) :: kvs) h
  constructor
  · intro l hl
    rw [hde] at hl
    rcases List.mem_cons.mp hl with h1 | h2
    · subst h1; exact headline_lineOk ind k hk
    · have hLO := hinner l h2
      refine ⟨?_, hLO.2.1, hLO.2.2⟩
      have hpre := hLO.1
      rw [List.isPrefixOf_iff_prefix] at hpre ⊢
      have hstep : spacesC ind <+: spacesC (ind + 2) := by
        rw [spacesC_add_two]; exact List.prefix_append _ _
      exact hstep.trans hpre
  · intro tail htail
    have hentry : isEntryLine ind ((⟨spacesC ind⟩ : String) ++ k ++ ":") = true :=
      isEntryLine_of ind c _ hc _ hld2
    have hdrop : (((⟨spacesC ind⟩ : String) ++ k ++ ":").data).drop ind
        = k.data ++ [':'] := by
      rw [hld]; exact drop_spaces_append _ _
    have hsplit : splitAtColon ((((⟨spacesC ind⟩ : String) ++ k ++ ":").data).drop ind)
        = some (k.data, []) := by
      rw [hdrop]
      exact splitAtColon_append k.data [] (plainSafe_no_colon k hk)
    have hbelongs : ∀ l ∈ dumpMapping (ind + 2) ((k0, v0) :: kvs), belongsTo ind l = true := by
      intro l hl
      have hpre := (hinner l hl).1
      rw [List.isPrefixOf_iff_prefix] at hpre
      obtain ⟨t, ht⟩ := hpre
      exact belongsTo_inner_true ind t l ht.symm
    have hsplit2 := takeWhile_append_boundary (belongsTo ind)
      (dumpMapping (ind + 2) ((k0, v0) :: kvs)) tail hbelongs htail
    have hpbv : parseBlockValue ind (dumpMapping (ind + 2) ((k0, v0) :: kvs))
        = some (.vdict ((k0, v0) :: kvs)) := by
      obtain ⟨l0, suffix, erest, he, hdata⟩ := dumpEntry_head_shape (ind + 2) k0 v0
      have hmap : dumpMapping (ind + 2) ((k0, v0) :: kvs)
          = l0 :: (erest ++ dumpMapping (ind + 2) kvs) := by
        rw [dumpMapping, he]; simp
      have hdash : ((spacesC ind ++ "- ".data).isPrefixOf l0.data) = false := by
        rw [hdata]; exact dash_prefix_false_of_inner ind _
      rw [hmap, parseBlockValue, hdash]
      rw [← hmap]
      rw [parse_dumpMapping ((k0, v0) :: kvs) (ind + 2) h]
      simp
    rw [hde, List.cons_append, parseMappingLines, if_pos hentry, hsplit,
      hsplit2.1, hsplit2.2, hpbv]
    cases hpt : parseMappingLines ind tail with
    | none => simp
    | some pr => simp

theorem valueOk0_rt (v : Value) (h : valueOk0 v = true) : ValueRT v :=
  valueRT_scalar v h

theorem valueOk1_rt (v : Value) (h : valueOk1 v = true) : ValueRT v := by
  cases v with
  | vlist xs =>
      cases xs with
      | nil => exact valueRT_scalar _ h
      | cons x xs => exact valueRT_list x xs h
  | vdict kvs =>
      cases kvs with
      | nil => exact valueRT_scalar _ h
      | cons kv kvs =>
          obtain ⟨k0, v0⟩ := kv
          refine valueRT_dict k0 v0 kvs ?_
          intro kv hkv
          have hh := List.all_eq_true.mp h kv hkv
          rw [Bool.and_eq_true] at hh
          exact ⟨hh.1, valueOk0_rt kv.2 hh.2⟩
  | vnone => exact valueRT_scalar _ h
  | vbool b => exact valueRT_scalar _ h
  | vint n => exact valueRT_scalar _ h
  | vstr s => exact valueRT_scalar _ h

theorem valueOk2_rt (v : Value) (h : valueOk2 v = true) : ValueRT v := by
  cases v with
  | vlist xs =>
      cases xs with
      | nil => exact valueRT_scalar _ h
      | cons x xs => exact valueRT_list x xs h
  | vdict kvs =>
      cases kvs with
      | nil => exact valueRT_scalar _ h
      | cons kv kvs =>
          obtain ⟨k0, v0⟩ := kv
          refine valueRT_dict k0 v0 kvs ?_
          intro kv hkv
          have hh := List.all_eq_true.mp h kv hkv
          rw [Bool.and_eq_true] at hh
          exact ⟨hh.1, valueOk1_rt kv.2 hh.2⟩
  | vnone => exact valueRT_scalar _ h
  | vbool b => exact valueRT_scalar _ h
  | vint n => exact valueRT_scalar _ h
  | vstr s => exact valueRT_scalar _ h

theorem vocab_plainSafe (k : String) (h : vocabKeys.contains k = true) :
    plainSafeString k = true := by
  have hmem : k ∈ vocabKeys := by simpa using h
  fin_cases hmem <;> decide

theorem wellFormedDoc_clean (config : List (String × Value))
    (h : wellFormedDoc config = true) :
    wellFormedDoc (clean_config_dict config) = true := by
  unfold wellFormedDoc at h ⊢
  rw [clean_eq_filter]
  apply List.all_eq_true.mpr
  intro kv hkv
  exact List.all_eq_true.mp h kv (List.mem_of_mem_filter hkv)

theorem parseYaml_dumpTop (doc : List (String × Value))
    (h : ∀ kv ∈ doc, plainSafeString kv.1 = true ∧ ValueRT kv.2) :
    parseYamlText (unlines (dumpTop doc)) = some (.vdict doc) := by
  cases doc with
  | nil => rfl
  | cons kv rest =>
      obtain ⟨k0, v0⟩ := kv
      have hlines := dumpMapping_linesOk 0 ((k0, v0) :: rest) h
      have hnl : ∀ l ∈ dumpMapping 0 ((k0, v0) :: rest), ∀ c ∈ l.data, c ≠ '\n' :=
        fun l hl => (hlines l hl).2.1
      have hne : ∀ l ∈ dumpMapping 0 ((k0, v0) :: rest), l ≠ "" := by
        intro l hl hcon
        have hd := (hlines l hl).2.2
        rw [hcon] at hd
        exact hd rfl
      show parseYamlText (unlines (dumpMapping 0 ((k0, v0) :: rest))) = _
      unfold parseYamlText
      rw [parsedLines_of_unlines _ hnl hne]
      unfold parseTop
      have hneq : ¬ dumpMapping 0 ((k0, v0) :: rest) = [("\x7b\x7d" : String)] := by
        obtain ⟨l0, suffix, erest, he, hdata⟩ := dumpEntry_head_shape 0 k0 v0
        have hm : dumpMapping 0 ((k0, v0) :: rest)
            = l0 :: (erest ++ dumpMapping 0 rest) := by
          rw [dumpMapping, he]; simp
        rw [hm]
        intro hcon
        have h1 : l0 = ("\x7b\x7d" : String) := by
          have hh := congrArg (fun ls => ls.head?) hcon
          simpa using hh
        obtain ⟨c, cs, hkd, hc, _⟩ :=
          plainSafe_shape k0 (h (k0, v0) (List.mem_cons_self _ _)).1
        have hd2 : l0.data = c :: (cs ++ suffix) := by
          rw [hdata, hkd]; simp [spacesC]
        rw [h1] at hd2
        have hlit : ("\x7b\x7d" : String).data = '\x7b' :: ['\x7d'] := rfl
        rw [hlit] at hd2
        have hch : c = '\x7b' := (List.cons.injEq _ _ _ _).mp hd2 |>.1.symm
        rw [hch] at hc
        exact absurd hc (by decide)
      rw [if_neg hneq]
      rw [parse_dumpMapping ((k0, v0) :: rest) 0 h]
      simp

/-- C3: for every document whose cleaned form uses only the recognized field
vocabulary with its prescribed value shapes (single-line string scalars,
booleans, lists of scalars, nested policy mappings), decoding the
comment-free format-A serialization of the cleaned document through
`load_config_file`'s decoder chain reproduces exactly the cleaned document,
whatever the format-B decoder. -/
theorem yaml_roundtrip (config : List (String × Value))
    (hwf : wellFormedDoc (clean_config_dict config) = true)
    (jsonDecode : String → Except String Value) :
    load_config_content yamlDecodeModel jsonDecode (generate_yaml_config_nc config)
      = some (.vdict (clean_config_dict config)) := by
  have hrt : ∀ kv ∈ clean_config_dict config,
      plainSafeString kv.1 = true ∧ ValueRT kv.2 := by
    intro kv hkv
    have hh := List.all_eq_true.mp hwf kv hkv
    rw [Bool.and_eq_true] at hh
    exact ⟨vocab_plainSafe kv.1 hh.1, valueOk2_rt kv.2 hh.2⟩
  have hparse : parseYamlText (generate_yaml_config_nc config)
      = some (.vdict (clean_config_dict config)) := by
    unfold generate_yaml_config_nc
    exact parseYaml_dumpTop (clean_config_dict config) hrt
  simp [load_config_content, yamlDecodeModel, hparse]

/-- Witness for C3: a configuration with the repository's own sample values
— a credentials path `/path/to/service-account.json` and an output path
`./reports` (quoted scalars), a baseline list, a string-`"true"` darkmode, a
break-glass UUID, a nested `omitpolicy` block with a free-text rationale and
a date, and a boolean flag — serializes and parses back to its cleaned
form. -/
theorem yaml_roundtrip_witness :
    load_config_content yamlDecodeModel failDecoder
        (generate_yaml_config_nc
          [("credentials", Value.vstr "/path/to/service-account.json"),
           ("baselines", Value.vlist [Value.vstr "gmail", Value.vstr "drive"]),
           ("outputpath", Value.vstr "./reports"),
           ("darkmode", Value.vstr "true"),
           ("breakglassaccounts", Value.vlist
              [Value.vstr "12345678-1234-4234-8234-123456789012"]),
           ("tenant", Value.vstr "example.com"),
           ("omitpolicy", Value.vdict [("GWS.GMAIL.1.1",
              Value.vdict [("rationale", Value.vstr "Not applicable in pilot."),
                           ("expiration", Value.vstr "2026-01-02")])]),
           ("quiet", Value.vbool false)])
      = some (.vdict (clean_config_dict
          [("credentials", Value.vstr "/path/to/service-account.json"),
           ("baselines", Value.vlist [Value.vstr "gmail", Value.vstr "drive"]),
           ("outputpath", Value.vstr "./reports"),
           ("darkmode", Value.vstr "true"),
           ("breakglassaccounts", Value.vlist
              [Value.vstr "12345678-1234-4234-8234-123456789012"]),
           ("tenant", Value.vstr "example.com"),
           ("omitpolicy", Value.vdict [("GWS.GMAIL.1.1",
              Value.vdict [("rationale", Value.vstr "Not applicable in pilot."),
                           ("expiration", Value.vstr "2026-01-02")])]),
           ("quiet", Value.vbool false)])) :=
  yaml_roundtrip
    [("credentials", Value.vstr "/path/to/service-account.json"),
           ("baselines", Value.vlist [Value.vstr "gmail", Value.vstr "drive"]),
           ("outputpath", Value.vstr "./reports"),
           ("darkmode", Value.vstr "true"),
           ("breakglassaccounts", Value.vlist
              [Value.vstr "12345678-1234-4234-8234-123456789012"]),
           ("tenant", Value.vstr "example.com"),
           ("omitpolicy", Value.vdict [("GWS.GMAIL.1.1",
              Value.vdict [("rationale", Value.vstr "Not applicable in pilot."),
                           ("expiration", Value.vstr "2026-01-02")])]),
           ("quiet", Value.vbool false)]
    (by decide) failDecoder

end Scuba
